import Mathlib

/-!
# Verification of the Testudo++ course-schedule core

Shallow embedding of the repository's schedule front-end parsing code
(`frontend/src/components/CalendarView.jsx`) together with a model of the
course-data cache store, constraint extractor and schedule assembler that the
design document describes (the back-end sources are not part of the snapshot,
so those components are modelled from the spec, as marked on each definition).
-/

namespace Testudo

/-- The five weekday names, in order (`DAYS` in `CalendarView.jsx`). -/
def DAYS : List String := ["Monday", "Tuesday", "Wednesday", "Thursday", "Friday"]

/-- Helper: JS `String.prototype.trim` on a character list — strip ASCII
whitespace from both ends. -/
def trimChars (l : List Char) : List Char :=
  ((l.dropWhile Char.isWhitespace).reverse.dropWhile Char.isWhitespace).reverse

/-- Helper: JS `String.prototype.split(sep)` for a one-character separator:
the (possibly empty) chunks between every occurrence of `c`. -/
def splitOnChar (c : Char) : List Char → List (List Char)
  | [] => [[]]
  | a :: rest =>
      if a = c then [] :: splitOnChar c rest
      else
        match splitOnChar c rest with
        | [] => [[a]]
        | chunk :: more => (a :: chunk) :: more

/-- `parseTime` from `CalendarView.jsx`: `null` unless the string contains a
`-`; otherwise the trimmed pieces before and after the first `-`.
The JS falsy guard `!timeStr` is the empty string for total strings. -/
def parseTime (timeStr : String) : Option (String × String) :=
  if timeStr.data.isEmpty || !(timeStr.data.contains '-') then none
  else
    match splitOnChar '-' timeStr.data with
    | s :: e :: _ => some (String.mk (trimChars s), String.mk (trimChars e))
    | _ => none

/-- Helper: does the character list contain the two-character subsequence
`c₁ c₂` at consecutive positions (models `String.includes` for a two-letter
needle)? -/
def containsPair (c₁ c₂ : Char) : List Char → Bool
  | a :: b :: rest => (a = c₁ && b = c₂) || containsPair c₁ c₂ (b :: rest)
  | _ => false

/-- Helper: delete every (left-to-right, non-overlapping) occurrence of a
letter in `{a, A, p, P}` immediately followed by `m`/`M`
(models `replace(/[ap]m/gi, '')`). -/
def removeAmPm : List Char → List Char
  | a :: m :: rest =>
      if (a = 'a' || a = 'A' || a = 'p' || a = 'P') && (m = 'm' || m = 'M') then
        removeAmPm rest
      else
        a :: removeAmPm (m :: rest)
  | l => l

/-- Helper: JS `Number(...)` on the strings this code feeds it: trims
whitespace, the empty string is `0`, a digit string is its value, anything
else is `NaN` (modelled as `none`). -/
def jsNumber (l : List Char) : Option Nat :=
  let t := trimChars l
  if t.isEmpty then some 0
  else if t.all Char.isDigit then
    some (t.foldl (fun n c => n * 10 + (c.toNat - 48)) 0)
  else none

/-- `timeToMinutes` from `CalendarView.jsx`: minutes after midnight, with the
12-hour am/pm adjustment; `none` models the `NaN` that JS produces when the
hour figure is not numeric. `!time` (empty string) returns `0`. -/
def timeToMinutes (time : String) : Option Nat :=
  if time.data.isEmpty then some 0
  else
    let lower := time.data.map Char.toLower
    let isPM := containsPair 'p' 'm' lower
    let isAM := containsPair 'a' 'm' lower
    let cleanTime := trimChars (removeAmPm time.data)
    match splitOnChar ':' cleanTime with
    | [] => none
    | hstr :: rest =>
      match jsNumber hstr with
      | none => none
      | some hours =>
        let mins := match rest with
          | [] => 0
          | mstr :: _ => (jsNumber mstr).getD 0
        let finalHours :=
          if isPM && hours ≠ 12 then hours + 12
          else if isAM && hours = 12 then 0
          else hours
        some (finalHours * 60 + mins)

/-- The scanning loop of `parseDays` from `CalendarView.jsx`, on the
character list: `Tu` and `Th` are matched first (two characters), then the
single letters `M`, `W`, `F`; any other character is skipped. -/
def parseDaysAux : List Char → List String
  | 'T' :: 'u' :: rest => "Tuesday" :: parseDaysAux rest
  | 'T' :: 'h' :: rest => "Thursday" :: parseDaysAux rest
  | c :: rest =>
      if c = 'M' then "Monday" :: parseDaysAux rest
      else if c = 'W' then "Wednesday" :: parseDaysAux rest
      else if c = 'F' then "Friday" :: parseDaysAux rest
      else parseDaysAux rest
  | [] => []

/-- `parseDays` from `CalendarView.jsx`: the compact day pattern expanded to
full day names; the JS falsy guard `!daysStr` returns `[]`. -/
def parseDays (daysStr : String) : List String :=
  if daysStr.isEmpty then [] else parseDaysAux daysStr.data

/-- **CourseSection** (spec §3): one offered section of a course. Optional
floats (`instructorRating`, `courseGpa`) are modelled as optional rationals. -/
structure CourseSection where
  code : String
  sectionId : String
  title : String
  description : String
  credits : Nat
  instructor : String
  instructorRating : Option ℚ
  courseGpa : Option ℚ
  openSeats : Nat
  location : String
  days : String
  time : String
  genEdCodes : List String
  termId : String
deriving DecidableEq, Repr

/-- A calendar block as produced by `CalendarView` in `CalendarView.jsx`:
the course together with one rendered day and its start/end minutes
(`none` models the JS `NaN` minute values). -/
structure CourseBlock where
  course : CourseSection
  day : String
  startMins : Option Nat
  endMins : Option Nat
deriving DecidableEq, Repr

/-- The blocks `CalendarView` pushes for one course: none when `parseTime`
returns `null`, otherwise one block per parsed day. -/
def blocksFor (course : CourseSection) : List CourseBlock :=
  match parseTime course.time with
  | none => []
  | some (s, e) =>
      (parseDays course.days).map (fun day =>
        { course := course, day := day,
          startMins := timeToMinutes s, endMins := timeToMinutes e })

/-- The full `courseBlocks` array built by `CalendarView` over a schedule's
course list. -/
def courseBlocks (courses : List CourseSection) : List CourseBlock :=
  (courses.map blocksFor).flatten

/-- Modelled from the spec (§4.3, the back-end sources are not in the
snapshot): resolving `days`/`time` to the meeting pattern of a section —
its parsed day set plus `[start, end)` minutes — using the repository's
parsers; `none` when the time is absent or unparseable. -/
def sectionMeeting (s : CourseSection) : Option (List String × Nat × Nat) :=
  match parseTime s.time with
  | none => none
  | some (st, en) =>
      match timeToMinutes st, timeToMinutes en with
      | some a, some b => some (parseDays s.days, a, b)
      | _, _ => none

/-- Do the two day sets share at least one day-of-week? -/
def sharesDay (d₁ d₂ : List String) : Bool :=
  d₁.any (fun d => d₂.contains d)

/-- Modelled from the spec (§4.3 conflict test): two sections conflict iff
they share a day and their `[start, end)` minute intervals overlap in the
half-open sense (`aStart < bEnd && bStart < aEnd`); a section with
unparseable or absent time never conflicts. -/
def conflicts (a b : CourseSection) : Bool :=
  match sectionMeeting a, sectionMeeting b with
  | some (da, sa, ea), some (db, sb, eb) =>
      sharesDay da db && (decide (sa < eb) && decide (sb < ea))
  | _, _ => false

/-- Modelled from the spec (glossary): the TTL is 24 hours; timestamps are in
seconds. -/
def TTL : Nat := 24 * 60 * 60

/-- Modelled from the spec (§3 CachePartition): a cached partition body — its
section list and the `fetchedAt` timestamp. -/
structure CacheEntry where
  sections : List CourseSection
  fetchedAt : Nat
deriving DecidableEq, Repr

/-- The opaque fetch failure surfaced by the cache store. -/
structure FetchError where
  msg : String
deriving DecidableEq, Repr

/-- The cache store's keyed state: one entry per partition identity (the
partition id rendered as a string, e.g. `dept_CMSC_202501`). -/
abbrev CacheState := List (String × CacheEntry)

/-- Look up the entry stored for a partition id. -/
def lookupEntry (st : CacheState) (pid : String) : Option CacheEntry :=
  match st.find? (fun p => p.fst == pid) with
  | some p => some p.snd
  | none => none

/-- Replace-don't-mutate (spec §3): storing a partition replaces it
wholesale. -/
def insertEntry (st : CacheState) (pid : String) (e : CacheEntry) : CacheState :=
  (pid, e) :: st.filter (fun p => !(p.fst == pid))

/-- Modelled from the spec (§3): freshness — an entry is fresh (non-stale)
when `now - fetchedAt ≤ TTL`. -/
def isFresh (now : Nat) (e : CacheEntry) : Bool :=
  now - e.fetchedAt ≤ TTL

/-- What one `resolve` call hands back on success: the section list, whether
it came from cache, and the stale-fallback flag. -/
structure ResolveOutcome where
  sections : List CourseSection
  fromCache : Bool
  stale : Bool
deriving DecidableEq, Repr

/-- Modelled from the spec (§4.1 Cache Store, sequential contract; the
back-end sources are not in the snapshot): `resolve` with the injected
fetch collaborator replaced by the value it would produce. Returns the
outcome, the updated store, and whether the fetch was invoked.
* fresh entry: returned as-is, fetch not invoked;
* stale or absent entry: fetch invoked; on success the result is stored
  with `fetchedAt = now` and returned;
* fetch failure with a stale entry: the stale sections are served with
  `stale := true`;
* fetch failure with no entry: the `FetchError` propagates. -/
def resolve (now : Nat) (pid : String)
    (fetchRes : Except FetchError (List CourseSection)) (st : CacheState) :
    Except FetchError ResolveOutcome × CacheState × Bool :=
  match lookupEntry st pid with
  | some e =>
      if isFresh now e then
        (.ok { sections := e.sections, fromCache := true, stale := false }, st, false)
      else
        match fetchRes with
        | .ok secs =>
            (.ok { sections := secs, fromCache := false, stale := false },
             insertEntry st pid { sections := secs, fetchedAt := now }, true)
        | .error _ =>
            (.ok { sections := e.sections, fromCache := true, stale := true }, st, true)
  | none =>
      match fetchRes with
      | .ok secs =>
          (.ok { sections := secs, fromCache := false, stale := false },
           insertEntry st pid { sections := secs, fetchedAt := now }, true)
      | .error err => (.error err, st, true)

/-- Run a sequence of `resolve` calls (timestamp and fetch-collaborator value
for each) against one partition id, counting how many invoked the fetch. -/
def resolveSeq (pid : String)
    (calls : List (Nat × Except FetchError (List CourseSection)))
    (st : CacheState) : CacheState × Nat :=
  calls.foldl
    (fun acc call =>
      let r := resolve call.fst pid call.snd acc.fst
      (r.2.1, acc.snd + (if r.2.2 then 1 else 0)))
    (st, 0)

deriving instance DecidableEq for Except

/-- Modelled from the spec (§4.1/§5, single-flight coordination): the state
of the store under concurrent access — the cache, the in-flight fetches with
their waiting callers, the running count of fetch invocations, and the
outcomes already delivered to callers. -/
structure FlightState where
  cache : CacheState
  inFlight : List (String × List Nat)
  fetchStarts : Nat
  delivered : List (Nat × Except FetchError (List CourseSection))
deriving DecidableEq, Repr

/-- Append a caller to the waiter list of a partition already in flight. -/
def addWaiter (pid : String) (caller : Nat) :
    List (String × List Nat) → List (String × List Nat)
  | [] => [(pid, [caller])]
  | (p, ws) :: rest =>
      if p = pid then (p, ws ++ [caller]) :: rest
      else (p, ws) :: addWaiter pid caller rest

/-- When no fresh entry serves the caller: join the in-flight fetch for this
partition if there is one, otherwise start a new fetch (counting it) with
this caller as the first waiter. -/
def startOrJoin (caller : Nat) (pid : String) (st : FlightState) : FlightState :=
  if (st.inFlight.find? (fun p => p.fst == pid)).isSome then
    { st with inFlight := addWaiter pid caller st.inFlight }
  else
    { st with inFlight := (pid, [caller]) :: st.inFlight,
              fetchStarts := st.fetchStarts + 1 }

/-- Modelled from the spec (§4.1 single-flight guarantee): a `resolve` call
arriving at time `now`. A fresh cached entry is delivered immediately;
otherwise the caller joins (or starts) the one in-flight fetch for the
partition. -/
def beginResolve (now : Nat) (caller : Nat) (pid : String)
    (st : FlightState) : FlightState :=
  match lookupEntry st.cache pid with
  | some e =>
      if isFresh now e then
        { st with delivered := (caller, .ok e.sections) :: st.delivered }
      else startOrJoin caller pid st
  | none => startOrJoin caller pid st

/-- Modelled from the spec (§4.1/§5): the one in-flight fetch for `pid`
completes with `outcome`; every waiter is released with that result (with the
stale-entry fallback on failure), and on success the partition is stored with
`fetchedAt = now`. -/
def completeFetch (now : Nat) (pid : String)
    (outcome : Except FetchError (List CourseSection))
    (st : FlightState) : FlightState :=
  let waiters :=
    match st.inFlight.find? (fun p => p.fst == pid) with
    | some p => p.snd
    | none => []
  let residual := st.inFlight.filter (fun p => !(p.fst == pid))
  match outcome with
  | .ok secs =>
      { cache := insertEntry st.cache pid { sections := secs, fetchedAt := now },
        inFlight := residual,
        fetchStarts := st.fetchStarts,
        delivered := (waiters.map (fun c => (c, Except.ok secs))) ++ st.delivered }
  | .error err =>
      match lookupEntry st.cache pid with
      | some e =>
          { st with inFlight := residual,
                    delivered :=
                      (waiters.map (fun c => (c, Except.ok e.sections))) ++ st.delivered }
      | none =>
          { st with inFlight := residual,
                    delivered :=
                      (waiters.map (fun c => (c, Except.error err))) ++ st.delivered }

/-- Modelled from the spec (§3 Constraint Set): the target total credits —
exact, or an open-ended bound from an "at least"/"up to" qualifier. -/
inductive CreditGoal where
  | exact (n : Nat)
  | atLeast (n : Nat)
  | atMost (n : Nat)
deriving DecidableEq, Repr

/-- Modelled from the spec (§3 Constraint Set): the parsed intent of one
request. -/
structure ConstraintSet where
  deptCodes : List String
  genEdCodes : List String
  excludeDays : List String
  earliestStart : Option Nat
  latestEnd : Option Nat
  creditGoal : Option CreditGoal
deriving DecidableEq, Repr

/-- Modelled from the spec (§4.3): the pre-filter a pool applies from the
ConstraintSet's day/time exclusions; a section with no resolvable meeting
passes (it is still schedulable). -/
def passesTimePrefs (cs : ConstraintSet) (s : CourseSection) : Bool :=
  match sectionMeeting s with
  | none => true
  | some (days, st, en) =>
      days.all (fun d => !(cs.excludeDays.contains d)) &&
      (match cs.earliestStart with | none => true | some m => decide (m ≤ st)) &&
      (match cs.latestEnd with | none => true | some m => decide (en ≤ m))

/-- The sections the resolved partitions hold for one requirement code. -/
def lookupSections (parts : List (String × List CourseSection))
    (code : String) : List CourseSection :=
  match parts.find? (fun p => p.fst == code) with
  | some p => p.snd
  | none => []

/-- The requirement slots of a ConstraintSet, in order: one per department
code, then one per gen-ed code. -/
def slotCodes (cs : ConstraintSet) : List String :=
  cs.deptCodes ++ cs.genEdCodes

/-- Modelled from the spec (§4.3): one candidate pool per requirement slot,
drawn from the corresponding resolved partition and pre-filtered by the
day/time exclusions. -/
def buildPools (cs : ConstraintSet)
    (parts : List (String × List CourseSection)) : List (List CourseSection) :=
  (slotCodes cs).map (fun code =>
    (lookupSections parts code).filter (passesTimePrefs cs))

/-- Modelled from the spec (§4.3 search algorithm): depth-first backtracking,
one slot per level; a candidate section is committed only when it conflicts
with no section already committed. The per-pool desirability ordering and the
node-visit budget only affect which results are found first, not the set of
complete assignments, and are not modelled (no claim depends on them). -/
def searchFrom (pools : List (List CourseSection))
    (committed : List CourseSection) : List (List CourseSection) :=
  match pools with
  | [] => [committed]
  | pool :: rest =>
      (pool.map (fun s =>
        if committed.any (fun prev => conflicts s prev) then []
        else searchFrom rest (committed ++ [s]))).flatten

/-- Total credits of a list of sections. -/
def sumCredits (secs : List CourseSection) : Nat :=
  (secs.map (fun s => s.credits)).sum

/-- Modelled from the spec (§4.3 completion): does the credit total meet the
requested target/range (vacuously true when no target was requested)? -/
def creditsOk (goal : Option CreditGoal) (n : Nat) : Bool :=
  match goal with
  | none => true
  | some (.exact t) => n = t
  | some (.atLeast t) => decide (t ≤ n)
  | some (.atMost t) => decide (n ≤ t)

/-- The `(start, end)` minute intervals a section list occupies on one day. -/
def dayIntervals (secs : List CourseSection) (day : String) : List (Nat × Nat) :=
  (secs.map (fun s =>
    match sectionMeeting s with
    | some (days, st, en) => if days.contains day then [(st, en)] else []
    | none => [])).flatten

/-- Sum of the idle gaps between consecutive intervals (already sorted by
start minute). -/
def gapsOf : List (Nat × Nat) → Nat
  | (_, e₁) :: (s₂, e₂) :: rest => (s₂ - e₁) + gapsOf ((s₂, e₂) :: rest)
  | _ => 0

/-- Modelled from the spec (§4.3 scoring): total idle-gap minutes between
consecutive classes, per day, summed over the week. -/
def totalIdleGap (secs : List CourseSection) : Nat :=
  (DAYS.map (fun day =>
    gapsOf (List.insertionSort (fun a b : Nat × Nat => a.1 ≤ b.1)
      (dayIntervals secs day)))).sum

/-- Average of the values present in a list of optional rationals
(`0` when none is present). -/
def avgOpt (xs : List (Option ℚ)) : ℚ :=
  let vals := xs.filterMap id
  if vals.length = 0 then 0 else vals.sum / (vals.length : ℚ)

/-- Modelled from the spec (§4.3 scoring): weighted sum of average instructor
rating, average course GPA and the schedule-compactness term. The weight
vector is not fixed by the spec (design note §9); it is pinned here to
`(1, 1, 1/60)`. -/
def scoreOf (secs : List CourseSection) : ℚ :=
  avgOpt (secs.map (fun s => s.instructorRating)) +
    avgOpt (secs.map (fun s => s.courseGpa)) -
    (totalIdleGap secs : ℚ) / 60

/-- **ScheduleCandidate** (spec §3): the chosen sections with derived totals
and score. -/
structure ScheduleCandidate where
  sections : List CourseSection
  totalCredits : Nat
  gap : Nat
  score : ℚ
deriving DecidableEq, Repr

/-- Build the candidate record for a complete assignment. -/
def mkCandidate (secs : List CourseSection) : ScheduleCandidate :=
  { sections := secs, totalCredits := sumCredits secs,
    gap := totalIdleGap secs, score := scoreOf secs }

/-- Lexicographic order on character lists (models the lexical comparison of
course-code strings). -/
def lexLe : List Char → List Char → Bool
  | [], _ => true
  | _ :: _, [] => false
  | a :: as, b :: bs =>
      if a < b then true else if b < a then false else lexLe as bs

/-- The code of a candidate's first section (the deterministic final
tiebreak). -/
def firstCode (c : ScheduleCandidate) : String :=
  match c.sections with
  | [] => ""
  | s :: _ => s.code

/-- Modelled from the spec (§4.3 ranking): the output comparison — higher
score first, ties broken by lower total idle-gap, then by lexical order of
the first section's code. -/
def candLE (a b : ScheduleCandidate) : Bool :=
  if b.score < a.score then true
  else if a.score < b.score then false
  else if a.gap < b.gap then true
  else if b.gap < a.gap then false
  else lexLe (firstCode a).data (firstCode b).data

/-- `candLE` as a relation, for the sorting machinery. -/
def candR (a b : ScheduleCandidate) : Prop := candLE a b = true

instance : DecidableRel candR := fun a b =>
  inferInstanceAs (Decidable (candLE a b = true))

/-- Keep only the first candidate carrying each distinct section set
(`seen` accumulates the section lists already emitted). -/
def dedupGo : List ScheduleCandidate → List (List CourseSection) →
    List ScheduleCandidate
  | [], _ => []
  | c :: rest, seen =>
      if seen.any (fun k => k.isPerm c.sections) then dedupGo rest seen
      else c :: dedupGo rest (c.sections :: seen)

/-- The fixed cap on returned candidates (spec §4.3: `K`, e.g. 5). -/
def K : Nat := 5

/-- The reason codes of the error-handling table (spec §7) that the
assembler itself produces. -/
inductive ReasonCode where
  | ok
  | noConstraintsRecognized
  | unsatisfiable
deriving DecidableEq, Repr

/-- The assembler's response: the ranked candidates plus a reason code. -/
structure AssembleResult where
  schedules : List ScheduleCandidate
  reason : ReasonCode
deriving DecidableEq, Repr

/-- Modelled from the spec (§4.3 Schedule Assembler): build the pools, run
the conflict-free search, keep the complete candidates whose credits meet the
target, rank them, drop duplicate section sets, and cap at `K`. An empty
requirement set short-circuits to an empty result with reason
`no_constraints_recognized`. -/
def assemble (cs : ConstraintSet)
    (parts : List (String × List CourseSection)) : AssembleResult :=
  let pools := buildPools cs parts
  if pools.isEmpty then
    { schedules := [], reason := .noConstraintsRecognized }
  else
    let complete := (searchFrom pools []).filter
      (fun secs => creditsOk cs.creditGoal (sumCredits secs))
    let cands := complete.map mkCandidate
    let ranked := List.insertionSort candR cands
    let top := (dedupGo ranked []).take K
    { schedules := top,
      reason := if top.isEmpty then .unsatisfiable else .ok }

/-- Helper: split a character list at every character satisfying `p`
(models splitting text on non-alphanumeric separators). -/
def splitWhen (p : Char → Bool) : List Char → List (List Char)
  | [] => [[]]
  | a :: rest =>
      if p a then [] :: splitWhen p rest
      else
        match splitWhen p rest with
        | [] => [[a]]
        | chunk :: more => (a :: chunk) :: more

/-- The upper-cased words of a request text (split on non-alphanumeric
characters, empty chunks dropped). -/
def wordsOf (text : String) : List String :=
  ((splitWhen (fun c => !c.isAlphanum) text.data).filter
    (fun w => !w.isEmpty)).map (fun w => String.mk (w.map Char.toUpper))

/-- Modelled from the spec (§4.2): the fixed department-code lookup table. -/
def deptTable : List String :=
  ["CMSC", "MATH", "PHYS", "CHEM", "HIST", "ENGL", "PSYC"]

/-- Modelled from the spec (§4.2): the gen-ed synonym table, phrase to
code. -/
def genEdTable : List (String × String) :=
  [("ORAL COMMUNICATION", "FSOC"), ("COMM", "FSOC"),
   ("DIVERSITY", "DVUP"), ("HUMANITIES", "DSHU")]

/-- Modelled from the spec (§4.2 Constraint Extractor): deterministic,
case-insensitive whole-word/phrase matching of the request text against the
department and gen-ed tables. It is total — no match yields empty code sets.
The day/time-phrase and credit-phrase tables are not required by any claim
and map to the neutral constraint here. -/
def extract (freeText : String) : ConstraintSet :=
  let ws := wordsOf freeText
  { deptCodes := deptTable.filter (fun d => ws.contains d),
    genEdCodes :=
      ((genEdTable.filter (fun p => decide ((wordsOf p.fst) <:+: ws))).map
        (fun p => p.snd)).dedup,
    excludeDays := [],
    earliestStart := none,
    latestEnd := none,
    creditGoal := none }

instance : Inhabited ScheduleCandidate := ⟨mkCandidate []⟩

/-- A concrete 3-credit FSOC section (the scenario of spec §8). -/
def demoFSOC : CourseSection :=
  { code := "COMM107"
    sectionId := "0101"
    title := "Oral Communication Principles"
    description := ""
    credits := 3
    instructor := "A. Speaker"
    instructorRating := none
    courseGpa := none
    openSeats := 10
    location := "SKN 0104"
    days := "MWF"
    time := "9:00am-9:50am"
    genEdCodes := ["FSOC"]
    termId := "202501" }

/-- A concrete 3-credit CMSC section meeting TuTh (no conflict with
`demoFSOC`). -/
def demoCMSC3 : CourseSection :=
  { demoFSOC with
    code := "CMSC216"
    sectionId := "0201"
    title := "Systems"
    credits := 3
    days := "TuTh"
    time := "11:00am-12:15pm"
    genEdCodes := [] }

/-- A concrete 4-credit CMSC section meeting MWF afternoons (no conflict with
`demoFSOC`). -/
def demoCMSC4 : CourseSection :=
  { demoFSOC with
    code := "CMSC330"
    sectionId := "0301"
    title := "Organization of Programming Languages"
    credits := 4
    days := "MWF"
    time := "1:00pm-1:50pm"
    genEdCodes := [] }

/-- A concrete section whose time string is unparseable. -/
def demoTBA : CourseSection :=
  { demoFSOC with
    code := "CMSC498"
    sectionId := "0401"
    title := "Selected Topics"
    credits := 3
    days := ""
    time := "TBA"
    genEdCodes := [] }

/-- The ConstraintSet of the credit-target scenario: CMSC and FSOC slots,
exact credit target 6. -/
def demoCS : ConstraintSet :=
  { deptCodes := ["CMSC"]
    genEdCodes := ["FSOC"]
    excludeDays := []
    earliestStart := none
    latestEnd := none
    creditGoal := some (.exact 6) }

/-- The resolved partitions of the credit-target scenario. -/
def demoParts : List (String × List CourseSection) :=
  [("CMSC", [demoCMSC3, demoCMSC4]), ("FSOC", [demoFSOC])]

/-- An empty single-flight store state. -/
def demoFlight : FlightState :=
  { cache := [], inFlight := [], fetchStarts := 0, delivered := [] }

/-! ## Lemmas -/

theorem parseDaysAux_subset (cs : List Char) : ∀ d ∈ parseDaysAux cs, d ∈ DAYS := by
  induction cs using parseDaysAux.induct with
  | _ => simp_all [parseDaysAux, DAYS]

theorem sharesDay_comm (d₁ d₂ : List String) : sharesDay d₁ d₂ = sharesDay d₂ d₁ := by
  apply Bool.eq_iff_iff.mpr
  simp only [sharesDay, List.any_eq_true, List.elem_iff]
  tauto

theorem conflicts_symm (a b : CourseSection) : conflicts a b = conflicts b a := by
  unfold conflicts
  cases ha : sectionMeeting a with
  | none => cases hb : sectionMeeting b <;> rfl
  | some ma =>
    cases hb : sectionMeeting b with
    | none => rfl
    | some mb =>
      obtain ⟨da, sa, ea⟩ := ma
      obtain ⟨db, sb, eb⟩ := mb
      simp only
      rw [sharesDay_comm]
      cases sharesDay db da <;> cases hsa : decide (sa < eb) <;>
        cases hsb : decide (sb < ea) <;> simp

/-- The pairwise no-conflict relation of the ScheduleCandidate invariant. -/
def NoConf (a b : CourseSection) : Prop :=
  conflicts a b = false ∧ conflicts b a = false

theorem searchFrom_pairwise (pools : List (List CourseSection)) :
    ∀ committed result, result ∈ searchFrom pools committed →
      List.Pairwise NoConf committed → List.Pairwise NoConf result := by
  induction pools with
  | nil =>
    intro committed result hres hcom
    simp only [searchFrom, List.mem_singleton] at hres
    exact hres ▸ hcom
  | cons pool rest ih =>
    intro committed result hres hcom
    simp only [searchFrom, List.mem_flatten, List.mem_map] at hres
    obtain ⟨l, ⟨s, hs, hl⟩, hres⟩ := hres
    by_cases hconf : committed.any (fun prev => conflicts s prev) = true
    · rw [if_pos hconf] at hl
      exact absurd (hl ▸ hres) (List.not_mem_nil result)
    · rw [if_neg hconf] at hl
      have hnc : ∀ prev ∈ committed, conflicts s prev = false := by
        intro prev hprev
        by_contra hne
        simp only [Bool.not_eq_false] at hne
        exact hconf (List.any_eq_true.mpr ⟨prev, hprev, hne⟩)
      refine ih (committed ++ [s]) result (hl ▸ hres) ?_
      rw [List.pairwise_append]
      refine ⟨hcom, List.pairwise_singleton _ _, ?_⟩
      intro a ha b hb
      rw [List.mem_singleton] at hb
      subst hb
      exact ⟨by rw [conflicts_symm]; exact hnc a ha, hnc a ha⟩

theorem searchFrom_length (pools : List (List CourseSection)) :
    ∀ committed result, result ∈ searchFrom pools committed →
      result.length = committed.length + pools.length := by
  induction pools with
  | nil =>
    intro committed result hres
    simp only [searchFrom, List.mem_singleton] at hres
    simp [hres]
  | cons pool rest ih =>
    intro committed result hres
    simp only [searchFrom, List.mem_flatten, List.mem_map] at hres
    obtain ⟨l, ⟨s, hs, hl⟩, hres⟩ := hres
    by_cases hconf : committed.any (fun prev => conflicts s prev) = true
    · rw [if_pos hconf] at hl
      exact absurd (hl ▸ hres) (List.not_mem_nil result)
    · rw [if_neg hconf] at hl
      have := ih (committed ++ [s]) result (hl ▸ hres)
      simp only [List.length_append, List.length_cons, List.length_nil] at this ⊢
      omega


theorem lexLe_total : ∀ (x y : List Char), lexLe x y = true ∨ lexLe y x = true
  | [], _ => Or.inl rfl
  | _ :: _, [] => Or.inr rfl
  | x :: xs, y :: ys => by
    rcases lt_trichotomy x y with h | h | h
    · left; simp [lexLe, h]
    · subst h
      rcases lexLe_total xs ys with ih | ih
      · left; simp [lexLe, ih]
      · right; simp [lexLe, ih]
    · right; simp [lexLe, h]

theorem lexLe_trans : ∀ (x y z : List Char),
    lexLe x y = true → lexLe y z = true → lexLe x z = true
  | [], _, _, _, _ => rfl
  | x :: xs, [], _, hxy, _ => by simp [lexLe] at hxy
  | _ :: _, _ :: _, [], _, hyz => by simp [lexLe] at hyz
  | x :: xs, y :: ys, z :: zs, hxy, hyz => by
    simp only [lexLe] at hxy hyz ⊢
    rcases lt_trichotomy x y with h1 | h1 | h1
    · rcases lt_trichotomy y z with h2 | h2 | h2
      · simp [lt_trans h1 h2]
      · subst h2; simp [h1]
      · rw [if_neg (lt_asymm h2), if_pos h2] at hyz; exact absurd hyz (by simp)
    · subst h1
      rw [if_neg (lt_irrefl x), if_neg (lt_irrefl x)] at hxy
      rcases lt_trichotomy x z with h2 | h2 | h2
      · simp [h2]
      · subst h2
        rw [if_neg (lt_irrefl x), if_neg (lt_irrefl x)] at hyz ⊢
        exact lexLe_trans xs ys zs hxy hyz
      · rw [if_neg (lt_asymm h2), if_pos h2] at hyz; exact absurd hyz (by simp)
    · rw [if_neg (lt_asymm h1), if_pos h1] at hxy; exact absurd hxy (by simp)

theorem candLE_iff (a b : ScheduleCandidate) :
    candLE a b = true ↔
      b.score < a.score ∨ (a.score = b.score ∧
        (a.gap < b.gap ∨ (a.gap = b.gap ∧
          lexLe (firstCode a).data (firstCode b).data = true))) := by
  unfold candLE
  split_ifs with h1 h2 h3 h4
  · simp [h1]
  · simp [h1, h2.ne]
  · have hs : a.score = b.score := le_antisymm (not_lt.mp h1) (not_lt.mp h2)
    simp [h1, hs, h3]
  · have hs : a.score = b.score := le_antisymm (not_lt.mp h1) (not_lt.mp h2)
    simp [h1, hs, h3, h4.ne']
  · have hs : a.score = b.score := le_antisymm (not_lt.mp h1) (not_lt.mp h2)
    have hg : a.gap = b.gap := le_antisymm (not_lt.mp h4) (not_lt.mp h3)
    simp [h1, hs, hg, h3]

theorem candLE_total (a b : ScheduleCandidate) :
    candLE a b = true ∨ candLE b a = true := by
  rw [candLE_iff, candLE_iff]
  rcases lt_trichotomy a.score b.score with h | h | h
  · right; exact Or.inl h
  · rcases lt_trichotomy a.gap b.gap with hg | hg | hg
    · left; exact Or.inr ⟨h, Or.inl hg⟩
    · rcases lexLe_total (firstCode a).data (firstCode b).data with hl | hl
      · left; exact Or.inr ⟨h, Or.inr ⟨hg, hl⟩⟩
      · right; exact Or.inr ⟨h.symm, Or.inr ⟨hg.symm, hl⟩⟩
    · right; exact Or.inr ⟨h.symm, Or.inl hg⟩
  · left; exact Or.inl h

theorem candLE_trans (a b c : ScheduleCandidate) :
    candLE a b = true → candLE b c = true → candLE a c = true := by
  rw [candLE_iff, candLE_iff, candLE_iff]
  rintro (hab | ⟨habs, hab⟩) (hbc | ⟨hbcs, hbc⟩)
  · exact Or.inl (lt_trans hbc hab)
  · exact Or.inl (hbcs ▸ hab)
  · exact Or.inl (habs ▸ hbc)
  · refine Or.inr ⟨habs.trans hbcs, ?_⟩
    rcases hab with hab | ⟨habg, hab⟩
    · rcases hbc with hbc | ⟨hbcg, _⟩
      · exact Or.inl (lt_trans hab hbc)
      · exact Or.inl (hbcg ▸ hab)
    · rcases hbc with hbc | ⟨hbcg, hbc⟩
      · exact Or.inl (habg ▸ hbc)
      · exact Or.inr ⟨habg.trans hbcg, lexLe_trans _ _ _ hab hbc⟩

instance : IsTotal ScheduleCandidate candR := ⟨candLE_total⟩

instance : IsTrans ScheduleCandidate candR := ⟨candLE_trans⟩


theorem dedupGo_sublist :
    ∀ (l : List ScheduleCandidate) (seen : List (List CourseSection)),
      List.Sublist (dedupGo l seen) l
  | [], _ => List.Sublist.refl _
  | c :: rest, seen => by
    simp only [dedupGo]
    split_ifs with h
    · exact (dedupGo_sublist rest seen).trans (List.sublist_cons_self c rest)
    · exact (dedupGo_sublist rest (c.sections :: seen)).cons₂ c

theorem dedupGo_not_seen :
    ∀ (l : List ScheduleCandidate) (seen : List (List CourseSection))
      (k : List CourseSection), k ∈ seen →
      ∀ c ∈ dedupGo l seen, k.isPerm c.sections = false
  | [], _, _, _, _, hc => absurd hc (List.not_mem_nil _)
  | c :: rest, seen, k, hk, c', hc' => by
    simp only [dedupGo] at hc'
    split_ifs at hc' with h
    · exact dedupGo_not_seen rest seen k hk c' hc'
    · rcases List.mem_cons.mp hc' with rfl | hmem
      · by_contra hne
        simp only [Bool.not_eq_false] at hne
        exact h (List.any_eq_true.mpr ⟨k, hk, hne⟩)
      · exact dedupGo_not_seen rest (c.sections :: seen) k
          (List.mem_cons_of_mem _ hk) c' hmem

theorem dedupGo_pairwise :
    ∀ (l : List ScheduleCandidate) (seen : List (List CourseSection)),
      List.Pairwise (fun a b => a.sections.isPerm b.sections = false)
        (dedupGo l seen)
  | [], _ => List.Pairwise.nil
  | c :: rest, seen => by
    simp only [dedupGo]
    split_ifs with h
    · exact dedupGo_pairwise rest seen
    · refine List.Pairwise.cons ?_ (dedupGo_pairwise rest (c.sections :: seen))
      intro b hb
      exact dedupGo_not_seen rest (c.sections :: seen) c.sections
        (List.mem_cons_self _ _) b hb

theorem mem_assemble_schedules (cs : ConstraintSet)
    (parts : List (String × List CourseSection)) (c : ScheduleCandidate)
    (hc : c ∈ (assemble cs parts).schedules) :
    ∃ secs, secs ∈ searchFrom (buildPools cs parts) [] ∧
      creditsOk cs.creditGoal (sumCredits secs) = true ∧ c = mkCandidate secs := by
  simp only [assemble] at hc
  split_ifs at hc with h h2
  · exact absurd hc (List.not_mem_nil c)
  · have h3 := (dedupGo_sublist _ _).subset (List.mem_of_mem_take hc)
    rw [List.mem_insertionSort] at h3
    obtain ⟨secs, hsecs, rfl⟩ := List.mem_map.mp h3
    obtain ⟨hsearch, hcred⟩ := List.mem_filter.mp hsecs
    exact ⟨secs, hsearch, hcred, rfl⟩
  · have h3 := (dedupGo_sublist _ _).subset (List.mem_of_mem_take hc)
    rw [List.mem_insertionSort] at h3
    obtain ⟨secs, hsecs, rfl⟩ := List.mem_map.mp h3
    obtain ⟨hsearch, hcred⟩ := List.mem_filter.mp hsecs
    exact ⟨secs, hsearch, hcred, rfl⟩

/-- **C1** (no-conflict invariant): for every ScheduleCandidate returned by
`assemble` and every pair of distinct sections in it, the conflict test
(shared parsed day plus half-open `[start, end)` overlap) is false. -/
theorem assemble_no_conflict_invariant (cs : ConstraintSet)
    (parts : List (String × List CourseSection)) (c : ScheduleCandidate)
    (hc : c ∈ (assemble cs parts).schedules) :
    List.Pairwise (fun a b => conflicts a b = false ∧ conflicts b a = false)
      c.sections := by
  obtain ⟨secs, hsearch, _, rfl⟩ := mem_assemble_schedules cs parts c hc
  exact searchFrom_pairwise _ [] secs hsearch List.Pairwise.nil

/-- Witness for the no-conflict invariant at the concrete scenario input. -/
theorem assemble_no_conflict_invariant_witness :
    List.Pairwise (fun a b => conflicts a b = false ∧ conflicts b a = false)
      (mkCandidate [demoCMSC3, demoFSOC]).sections :=
  assemble_no_conflict_invariant demoCS demoParts
    (mkCandidate [demoCMSC3, demoFSOC]) (List.Mem.head _)

/-- **C5** (day-pattern round-trip): `"MWF"` parses to Monday/Wednesday/
Friday, `"TuTh"` to Tuesday/Thursday, `"MW"` to Monday/Wednesday. -/
theorem parseDays_day_patterns :
    parseDays "MWF" = ["Monday", "Wednesday", "Friday"] ∧
    parseDays "TuTh" = ["Tuesday", "Thursday"] ∧
    parseDays "MW" = ["Monday", "Wednesday"] := by
  decide

/-- **C6** (completion and credit target): a returned candidate always fills
every slot and meets the credit target; in the FSOC+CMSC scenario with exact
target 6, the 6-credit combination is returned and the 7-credit one is not. -/
theorem assemble_completion_credit_target :
    (∀ (cs : ConstraintSet) (parts : List (String × List CourseSection))
        (c : ScheduleCandidate), c ∈ (assemble cs parts).schedules →
        c.sections.length = (buildPools cs parts).length ∧
        creditsOk cs.creditGoal c.totalCredits = true) ∧
    (assemble demoCS demoParts).schedules.map (fun c => c.sections) =
      [[demoCMSC3, demoFSOC]] ∧
    (assemble demoCS demoParts).schedules.map (fun c => c.totalCredits) = [6] ∧
    (assemble demoCS demoParts).schedules.all
      (fun c => !(c.sections.isPerm [demoFSOC, demoCMSC4])) = true := by
  refine ⟨?_, by decide, by decide, by decide⟩
  intro cs parts c hc
  obtain ⟨secs, hsearch, hcred, rfl⟩ := mem_assemble_schedules cs parts c hc
  have hlen := searchFrom_length _ [] secs hsearch
  simp only [List.length_nil, Nat.zero_add] at hlen
  exact ⟨hlen, hcred⟩

/-- Witness for the completion/credit contract at the concrete scenario
input. -/
theorem assemble_completion_credit_target_witness :
    (mkCandidate [demoCMSC3, demoFSOC]).sections.length =
      (buildPools demoCS demoParts).length ∧
    creditsOk demoCS.creditGoal
      (mkCandidate [demoCMSC3, demoFSOC]).totalCredits = true :=
  assemble_completion_credit_target.1 demoCS demoParts
    (mkCandidate [demoCMSC3, demoFSOC]) (List.Mem.head _)

/-- **C7** (top-K, ordering, distinctness): `assemble` returns at most `K`
candidates, sorted descending by score with ties broken by lower idle-gap and
then lexical first-section code (`candLE`), and no two returned candidates
have permutation-equal section lists. -/
theorem assemble_topk_ordered_distinct (cs : ConstraintSet)
    (parts : List (String × List CourseSection)) :
    (assemble cs parts).schedules.length ≤ K ∧
    List.Pairwise (fun a b => candLE a b = true) (assemble cs parts).schedules ∧
    List.Pairwise (fun a b => ¬ List.Perm a.sections b.sections)
      (assemble cs parts).schedules := by
  have key : ∀ (l : List ScheduleCandidate),
      (List.take K (dedupGo (List.insertionSort candR l) [])).length ≤ K ∧
      List.Pairwise candR (List.take K (dedupGo (List.insertionSort candR l) [])) ∧
      List.Pairwise (fun a b => ¬ List.Perm a.sections b.sections)
        (List.take K (dedupGo (List.insertionSort candR l) [])) := by
    intro l
    refine ⟨?_, ?_, ?_⟩
    · rw [List.length_take]; exact min_le_left _ _
    · exact List.Pairwise.sublist
        ((List.take_sublist _ _).trans (dedupGo_sublist _ _))
        (List.sorted_insertionSort candR l)
    · have hp := List.Pairwise.sublist (List.take_sublist K _)
        (dedupGo_pairwise (List.insertionSort candR l) [])
      refine hp.imp ?_
      intro a b h hperm
      exact absurd (List.isPerm_iff.mpr hperm) (by simp [h])
  simp only [assemble]
  split_ifs with h h2
  · exact ⟨Nat.zero_le _, List.Pairwise.nil, List.Pairwise.nil⟩
  · exact key _
  · exact key _

/-- **C10** (parser safety): `parseDays` is total, yields only the five
weekday names for every input, and skips unrecognized characters instead of
failing. -/
theorem parseDays_total_safe :
    (∀ (s d : String), d ∈ parseDays s → d ∈ DAYS) ∧
    parseDays "SMT9W" = ["Monday", "Wednesday"] ∧
    parseDays "" = [] := by
  refine ⟨?_, by decide, by decide⟩
  intro s d h
  unfold parseDays at h
  split_ifs at h
  · exact absurd h (List.not_mem_nil d)
  · exact parseDaysAux_subset s.data d h

/-- Witness for the parser-safety contract at a concrete pattern. -/
theorem parseDays_total_safe_witness : "Monday" ∈ DAYS :=
  parseDays_total_safe.1 "MWF" "Monday" (by decide)

/-- **C9** (unparseable time): a section whose time string is unparseable
has no resolvable meeting, never conflicts in either direction, survives the
pool pre-filter (stays eligible), and the calendar renderer produces no block
for it. -/
theorem unparseable_time_section (c : CourseSection)
    (h : parseTime c.time = none) :
    blocksFor c = [] ∧
    sectionMeeting c = none ∧
    (∀ b, conflicts c b = false ∧ conflicts b c = false) ∧
    (∀ (cs : ConstraintSet) (pool : List CourseSection), c ∈ pool →
      c ∈ pool.filter (passesTimePrefs cs)) := by
  have hm : sectionMeeting c = none := by
    unfold sectionMeeting; rw [h]
  refine ⟨by unfold blocksFor; rw [h], hm, ?_, ?_⟩
  · intro b
    constructor
    · unfold conflicts; rw [hm]
    · unfold conflicts; rw [hm]
      cases hb : sectionMeeting b with
      | none => rfl
      | some mb => obtain ⟨db, sb, eb⟩ := mb; rfl
  · intro cs pool hp
    rw [List.mem_filter]
    refine ⟨hp, ?_⟩
    unfold passesTimePrefs; rw [hm]

/-- Witness for the unparseable-time contract at a concrete TBA section. -/
theorem unparseable_time_section_witness :
    blocksFor demoTBA = [] ∧
    conflicts demoTBA demoFSOC = false ∧ conflicts demoFSOC demoTBA = false ∧
    demoTBA ∈ ([demoTBA].filter (passesTimePrefs demoCS)) := by
  obtain ⟨h1, _, h3, h4⟩ := unparseable_time_section demoTBA (by decide)
  exact ⟨h1, (h3 demoFSOC).1, (h3 demoFSOC).2, h4 demoCS [demoTBA] (by decide)⟩

theorem lookupEntry_insert_self (st : CacheState) (pid : String) (e : CacheEntry) :
    lookupEntry (insertEntry st pid e) pid = some e := by
  unfold lookupEntry insertEntry
  rw [List.find?_cons_of_pos _ (by simp)]

theorem resolve_fresh_hit (now : Nat) (pid : String)
    (fr : Except FetchError (List CourseSection)) (st : CacheState)
    (e : CacheEntry) (hl : lookupEntry st pid = some e)
    (hf : isFresh now e = true) :
    resolve now pid fr st =
      (.ok { sections := e.sections, fromCache := true, stale := false },
       st, false) := by
  simp only [resolve, hl, hf, if_true]

theorem resolve_miss_fetch (now : Nat) (pid : String)
    (s₀ : List CourseSection) (st : CacheState)
    (hl : lookupEntry st pid = none) :
    resolve now pid (.ok s₀) st =
      (.ok { sections := s₀, fromCache := false, stale := false },
       insertEntry st pid { sections := s₀, fetchedAt := now }, true) := by
  simp only [resolve, hl]

theorem resolve_stale_fetch (now : Nat) (pid : String)
    (s₀ : List CourseSection) (st : CacheState) (e : CacheEntry)
    (hl : lookupEntry st pid = some e) (hf : isFresh now e = false) :
    resolve now pid (.ok s₀) st =
      (.ok { sections := s₀, fromCache := false, stale := false },
       insertEntry st pid { sections := s₀, fetchedAt := now }, true) := by
  simp only [resolve, hl, hf, Bool.false_eq_true, if_false]

theorem resolve_stale_failed (now : Nat) (pid : String) (err : FetchError)
    (st : CacheState) (e : CacheEntry)
    (hl : lookupEntry st pid = some e) (hf : isFresh now e = false) :
    resolve now pid (.error err) st =
      (.ok { sections := e.sections, fromCache := true, stale := true },
       st, true) := by
  simp only [resolve, hl, hf, Bool.false_eq_true, if_false]

theorem resolve_miss_failed (now : Nat) (pid : String) (err : FetchError)
    (st : CacheState) (hl : lookupEntry st pid = none) :
    resolve now pid (.error err) st = (.error err, st, true) := by
  simp only [resolve, hl]

/-- **C2** (cache freshness): a fresh entry is returned without invoking the
fetch; a stale or absent entry invokes it and stores the result with
`fetchedAt = now`; two calls within TTL fetch exactly once, and a further
call past the TTL fetches exactly once more. -/
theorem resolve_ttl_freshness (st : CacheState) (pid : String)
    (now t₀ t₁ t₂ : Nat) (e : CacheEntry)
    (fr fr₁ : Except FetchError (List CourseSection))
    (s₀ s₂ : List CourseSection) :
    (lookupEntry st pid = some e → isFresh now e = true →
      resolve now pid fr st =
        (.ok { sections := e.sections, fromCache := true, stale := false },
         st, false)) ∧
    (lookupEntry st pid = none →
      resolve now pid (.ok s₀) st =
        (.ok { sections := s₀, fromCache := false, stale := false },
         insertEntry st pid { sections := s₀, fetchedAt := now }, true)) ∧
    (lookupEntry st pid = some e → isFresh now e = false →
      resolve now pid (.ok s₀) st =
        (.ok { sections := s₀, fromCache := false, stale := false },
         insertEntry st pid { sections := s₀, fetchedAt := now }, true)) ∧
    (lookupEntry st pid = none → t₁ - t₀ ≤ TTL →
      (resolveSeq pid [(t₀, .ok s₀), (t₁, fr₁)] st).2 = 1) ∧
    (lookupEntry st pid = none → t₁ - t₀ ≤ TTL → TTL < t₂ - t₀ →
      (resolveSeq pid [(t₀, .ok s₀), (t₁, fr₁), (t₂, .ok s₂)] st).2 = 2) := by
  have seq2 : lookupEntry st pid = none → t₁ - t₀ ≤ TTL →
      resolveSeq pid [(t₀, .ok s₀), (t₁, fr₁)] st =
        (insertEntry st pid { sections := s₀, fetchedAt := t₀ }, 1) := by
    intro h0 hfresh
    have r1 := resolve_miss_fetch t₀ pid s₀ st h0
    have r2 := resolve_fresh_hit t₁ pid fr₁
      (insertEntry st pid { sections := s₀, fetchedAt := t₀ })
      { sections := s₀, fetchedAt := t₀ } (lookupEntry_insert_self st pid _)
      (by simp [isFresh, hfresh])
    simp [resolveSeq, List.foldl, r1, r2]
  refine ⟨resolve_fresh_hit now pid fr st e,
          fun h => resolve_miss_fetch now pid s₀ st h,
          fun h hf => resolve_stale_fetch now pid s₀ st e h hf,
          fun h hfr => by rw [seq2 h hfr],
          fun h hfr hstale => ?_⟩
  have hseq := seq2 h hfr
  have hsplit : ([(t₀, Except.ok s₀), (t₁, fr₁), (t₂, Except.ok s₂)] :
        List (Nat × Except FetchError (List CourseSection))) =
        [(t₀, .ok s₀), (t₁, fr₁)] ++ [(t₂, .ok s₂)] := rfl
  unfold resolveSeq at hseq ⊢
  rw [hsplit, List.foldl_append, hseq]
  have r3 := resolve_stale_fetch t₂ pid s₂
      (insertEntry st pid { sections := s₀, fetchedAt := t₀ })
      { sections := s₀, fetchedAt := t₀ } (lookupEntry_insert_self st pid _)
      (by simp [isFresh]; omega)
  simp [List.foldl, r3]


/-- **C3** (availability over freshness): a failing fetch with no cached
entry surfaces the `FetchError`; with a stale entry it serves the stale
sections flagged `stale := true` — in particular for an entry fetched 25
hours before the call. -/
theorem resolve_stale_fallback (st : CacheState) (pid : String) (now : Nat)
    (err : FetchError) (e : CacheEntry) :
    (lookupEntry st pid = none →
      resolve now pid (.error err) st = (.error err, st, true)) ∧
    (lookupEntry st pid = some e → isFresh now e = false →
      resolve now pid (.error err) st =
        (.ok { sections := e.sections, fromCache := true, stale := true },
         st, true)) ∧
    resolve (25 * 60 * 60) "dept_CMSC_202501"
        (.error { msg := "fetch failed" })
        [("dept_CMSC_202501", { sections := [demoCMSC3], fetchedAt := 0 })] =
      (.ok { sections := [demoCMSC3], fromCache := true, stale := true },
       [("dept_CMSC_202501", { sections := [demoCMSC3], fetchedAt := 0 })],
       true) := by
  refine ⟨fun h => resolve_miss_failed now pid err st h,
          fun h hf => resolve_stale_failed now pid err st e h hf,
          by decide⟩

/-- Witness for the stale-fallback contract at concrete states. -/
theorem resolve_stale_fallback_witness :
    resolve 90000 "q" (.error { msg := "down" }) [] =
      (.error { msg := "down" }, [], true) ∧
    resolve 90000 "q" (.error { msg := "down" })
        [("q", { sections := [demoFSOC], fetchedAt := 0 })] =
      (.ok { sections := [demoFSOC], fromCache := true, stale := true },
       [("q", { sections := [demoFSOC], fetchedAt := 0 })], true) := by
  refine ⟨(resolve_stale_fallback [] "q" 90000 { msg := "down" }
      { sections := [demoFSOC], fetchedAt := 0 }).1 (by decide),
    (resolve_stale_fallback [("q", { sections := [demoFSOC], fetchedAt := 0 })]
      "q" 90000 { msg := "down" }
      { sections := [demoFSOC], fetchedAt := 0 }).2.1 (by decide) (by decide)⟩

/-- Witness for the TTL-freshness contract at concrete timestamps
(second call 1000 s after the first, third call 25 h after the first). -/
theorem resolve_ttl_freshness_witness :
    (resolveSeq "p" [(0, .ok [demoFSOC]), (1000, .ok [demoFSOC])] []).2 = 1 ∧
    (resolveSeq "p"
      [(0, .ok [demoFSOC]), (1000, .ok [demoFSOC]), (90000, .ok [demoFSOC])]
      []).2 = 2 := by
  have h := resolve_ttl_freshness [] "p" 0 0 1000 90000
    { sections := [], fetchedAt := 0 } (.ok []) (.ok [demoFSOC])
    [demoFSOC] [demoFSOC]
  exact ⟨h.2.2.2.1 (by decide) (by decide),
         h.2.2.2.2 (by decide) (by decide) (by decide)⟩

/-- **C8** (extractor totality): `extract` succeeds on every input; with no
department or gen-ed match the code sets are empty, and `assemble` on the
resulting empty requirement set returns the empty list with reason
`no_constraints_recognized` — neither an error nor a match-everything. -/
theorem extract_no_match_empty (text : String)
    (parts : List (String × List CourseSection))
    (hd : deptTable.all (fun d => !((wordsOf text).contains d)) = true)
    (hg : genEdTable.all
      (fun p => !(decide ((wordsOf p.fst) <:+: wordsOf text))) = true) :
    (extract text).deptCodes = [] ∧ (extract text).genEdCodes = [] ∧
    assemble (extract text) parts =
      { schedules := [], reason := .noConstraintsRecognized } := by
  have h1 : (extract text).deptCodes = [] := by
    simp only [extract]
    rw [List.filter_eq_nil_iff]
    intro d hdm
    simpa using List.all_eq_true.mp hd d hdm
  have h2' : (genEdTable.filter
      (fun p => decide ((wordsOf p.fst) <:+: wordsOf text))) = [] := by
    rw [List.filter_eq_nil_iff]
    intro p hp
    simpa using List.all_eq_true.mp hg p hp
  have h2 : (extract text).genEdCodes = [] := by
    simp [extract, h2']
  have hpools : buildPools (extract text) parts = [] := by
    simp [buildPools, slotCodes, h1, h2]
  refine ⟨h1, h2, ?_⟩
  simp [assemble, hpools]

/-- Witness for the extractor contract on a text with no matches. -/
theorem extract_no_match_empty_witness :
    (extract "an utterly unrelated request").deptCodes = [] ∧
    (extract "an utterly unrelated request").genEdCodes = [] ∧
    assemble (extract "an utterly unrelated request") demoParts =
      { schedules := [], reason := .noConstraintsRecognized } :=
  extract_no_match_empty "an utterly unrelated request" demoParts
    (by decide) (by decide)

theorem addWaiter_find (pid : String) (caller : Nat) :
    ∀ (fl : List (String × List Nat)) (ws : List Nat),
      fl.find? (fun p => p.fst == pid) = some (pid, ws) →
      (addWaiter pid caller fl).find? (fun p => p.fst == pid) =
        some (pid, ws ++ [caller])
  | [], ws, h => by simp [List.find?] at h
  | (q, w) :: rest, ws, h => by
    by_cases hq : q = pid
    · subst hq
      rw [List.find?_cons_of_pos _ (by simp)] at h
      simp only [Option.some.injEq, Prod.mk.injEq, true_and] at h
      subst h
      have haw : addWaiter q caller ((q, w) :: rest) =
          (q, w ++ [caller]) :: rest := by simp [addWaiter]
      rw [haw, List.find?_cons_of_pos _ (by simp)]
    · rw [List.find?_cons_of_neg _ (by simp [hq])] at h
      simp only [addWaiter, if_neg hq]
      rw [List.find?_cons_of_neg _ (by simp [hq])]
      exact addWaiter_find pid caller rest ws h

theorem beginResolve_start (now caller : Nat) (pid : String) (st : FlightState)
    (hc : lookupEntry st.cache pid = none)
    (hf : st.inFlight.find? (fun p => p.fst == pid) = none) :
    beginResolve now caller pid st =
      { st with inFlight := (pid, [caller]) :: st.inFlight,
                fetchStarts := st.fetchStarts + 1 } := by
  simp only [beginResolve, hc, startOrJoin, hf, Option.isSome_none,
    Bool.false_eq_true, if_false]

theorem beginResolve_join (now caller : Nat) (pid : String) (st : FlightState)
    (pr : String × List Nat)
    (hc : lookupEntry st.cache pid = none)
    (hf : st.inFlight.find? (fun p => p.fst == pid) = some pr) :
    beginResolve now caller pid st =
      { st with inFlight := addWaiter pid caller st.inFlight } := by
  simp only [beginResolve, hc, startOrJoin, hf, Option.isSome_some, if_true]

theorem foldl_beginResolve_join (now : Nat) (pid : String) :
    ∀ (callers : List Nat) (st : FlightState) (ws : List Nat),
      lookupEntry st.cache pid = none →
      st.inFlight.find? (fun p => p.fst == pid) = some (pid, ws) →
      (callers.foldl (fun s c => beginResolve now c pid s) st).cache = st.cache ∧
      (callers.foldl (fun s c => beginResolve now c pid s) st).inFlight.find?
        (fun p => p.fst == pid) = some (pid, ws ++ callers) ∧
      (callers.foldl (fun s c => beginResolve now c pid s) st).fetchStarts =
        st.fetchStarts
  | [], st, ws, hc, hf => by simp [hf]
  | c :: rest, st, ws, hc, hf => by
    rw [List.foldl_cons, beginResolve_join now c pid st (pid, ws) hc hf]
    have hf' := addWaiter_find pid c st.inFlight ws hf
    obtain ⟨h1, h2, h3⟩ :=
      foldl_beginResolve_join now pid rest
        { st with inFlight := addWaiter pid c st.inFlight } (ws ++ [c]) hc hf'
    refine ⟨h1, ?_, h3⟩
    rw [h2, List.append_assoc]
    rfl

/-- **C4** (single-flight): N ≥ 1 concurrent `resolve` arrivals for one
uncached partition start exactly one fetch, and once that fetch completes
every caller is delivered its outcome (success or failure alike); no caller
hits an error path. -/
theorem resolve_single_flight (callers : List Nat) (pid : String)
    (now nowDone : Nat) (outcome : Except FetchError (List CourseSection))
    (st₀ : FlightState)
    (hne : callers ≠ [])
    (hc : lookupEntry st₀.cache pid = none)
    (hf : st₀.inFlight.find? (fun p => p.fst == pid) = none) :
    (callers.foldl (fun s c => beginResolve now c pid s) st₀).fetchStarts =
      st₀.fetchStarts + 1 ∧
    ∀ c ∈ callers,
      (c, outcome) ∈ (completeFetch nowDone pid outcome
        (callers.foldl (fun s c => beginResolve now c pid s) st₀)).delivered := by
  obtain ⟨c₀, rest, rfl⟩ := List.exists_cons_of_ne_nil hne
  rw [List.foldl_cons, beginResolve_start now c₀ pid st₀ hc hf]
  have hf₁ : (({ st₀ with
      inFlight := (pid, [c₀]) :: st₀.inFlight
      fetchStarts := st₀.fetchStarts + 1 } : FlightState)).inFlight.find?
        (fun p => p.fst == pid) = some (pid, [c₀]) := by
    simp only
    rw [List.find?_cons_of_pos _ (by simp)]
  obtain ⟨hcache, hfind, hstarts⟩ :=
    foldl_beginResolve_join now pid rest
      { st₀ with
        inFlight := (pid, [c₀]) :: st₀.inFlight
        fetchStarts := st₀.fetchStarts + 1 } [c₀] hc hf₁
  refine ⟨by rw [hstarts], ?_⟩
  intro c hcm
  have hmem : c ∈ [c₀] ++ rest := hcm
  unfold completeFetch
  cases outcome with
  | ok secs =>
    simp only [hfind]
    exact List.mem_append_left _ (List.mem_map.mpr ⟨c, hmem, rfl⟩)
  | error err =>
    simp only [hfind, hcache, hc]
    exact List.mem_append_left _ (List.mem_map.mpr ⟨c, hmem, rfl⟩)

/-- Witness for the single-flight contract: three concurrent callers, one
fetch, every caller delivered the fetched sections. -/
theorem resolve_single_flight_witness :
    (([1, 2, 3] : List Nat).foldl
        (fun s c => beginResolve 0 c "p" s) demoFlight).fetchStarts =
      demoFlight.fetchStarts + 1 ∧
    ((2 : Nat), Except.ok (ε := FetchError) [demoFSOC]) ∈
      (completeFetch 5 "p" (.ok [demoFSOC])
        (([1, 2, 3] : List Nat).foldl
          (fun s c => beginResolve 0 c "p" s) demoFlight)).delivered := by
  have h := resolve_single_flight [1, 2, 3] "p" 0 5 (.ok [demoFSOC])
    demoFlight (by decide) (by decide) (by decide)
  exact ⟨h.1, h.2 2 (by decide)⟩

end Testudo
